import Mathlib

/-!
Verification of the RESP wire-protocol codec in `parser.go` of the archer
repository.  Byte streams are modelled as `List Nat` (each entry one byte),
values as the Go structs, and the decoder as a fuel-stratified recursive
function; the fuel passed by the top-level entry point always exceeds the
recursion depth actually reachable, since every recursive call consumes at
least one byte of the stream first.
-/

namespace Archer

/-- A byte stream / byte string: one `Nat` per byte. -/
abbrev Bytes := List Nat

/-! Constants from the `var` block of parser.go. -/

def SimpleType : String := "simple"

def ErrorType : String := "error"

def IntType : String := "int"

def BulkType : String := "bulk"

def ArrayType : String := "array"

def SimpSep : Nat := 43  -- '+'

def ErrSep : Nat := 45   -- '-'

def IntSep : Nat := 58   -- ':'

def BulkSep : Nat := 36  -- '$'

def ArrSep : Nat := 42   -- '*'

def CRLF : Bytes := [13, 10]

def PING : Bytes := [80, 73, 78, 71]

def QUIT : Bytes := [81, 85, 73, 84]

/-! ## The value model

Go `BaseResp` carries a type tag and a list of byte-string arguments.
`BulkResp` additionally carries the `Empty` flag, `ArrayResp` carries a list
of `BulkResp` children (its own `Args` field shadowing the embedded
`BaseResp.Args`, which the embedded base keeps as a separate — always
untouched — field, modelled by `baseArgs`). -/

structure BaseResp where
  rtype : String
  args : List Bytes
deriving DecidableEq, Repr

structure BulkResp where
  rtype : String
  args : List Bytes
  empty : Bool
deriving DecidableEq, Repr

structure ArrayResp where
  rtype : String
  baseArgs : List Bytes
  args : List BulkResp
deriving DecidableEq, Repr

/-- The `Resp` interface: one constructor per concrete Go struct. -/
inductive Resp where
  | simple (br : BaseResp)
  | error (br : BaseResp)
  | int (br : BaseResp)
  | bulk (br : BulkResp)
  | array (ar : ArrayResp)
deriving DecidableEq, Repr

/-- Go `BaseResp.Length`: always 0. -/
def BaseResp.Length (_ : BaseResp) : Int := 0

/-- Go `ArrayResp.Length`: `len(ar.Args) - 1` (Go `int` arithmetic, so `-1`
on an empty array). -/
def ArrayResp.Length (ar : ArrayResp) : Int := (ar.args.length : Int) - 1

/-- Interface dispatch of `Length`: `ArrayResp` overrides, every other
concrete type inherits `BaseResp.Length`. -/
def Resp.Length : Resp → Int
  | .array ar => ar.Length
  | .simple br => br.Length
  | .error br => br.Length
  | .int br => br.Length
  | .bulk b => BaseResp.Length ⟨b.rtype, b.args⟩

/-! ## The integer codec (external collaborator `util.Itob` / `util.ParseLen`)

The `util` package is not part of the sources at hand; clause §4.4 of the
specification pins down its contract, which the two definitions below follow.
`digitsRevF` produces the base-10 digits least-significant first, with a
structural fuel argument so that it evaluates by kernel reduction. -/

def digitsRevF : Nat → Nat → List Nat
  | 0, _ => []
  | _ + 1, 0 => []
  | f + 1, n + 1 => ((n + 1) % 10) :: digitsRevF f ((n + 1) / 10)

/-- Modelled from the spec: `util.Itob` (§4.4(a)), missing from the sources —
"non-negative integer → ASCII decimal byte sequence". -/
def itob (n : Nat) : Bytes :=
  if n = 0 then [48] else ((digitsRevF n n).reverse).map (fun d => d + 48)

/-- Numeric value of an ASCII-decimal byte string (most significant first). -/
def bytesToNat (bs : Bytes) : Nat :=
  bs.foldl (fun a b => a * 10 + (b - 48)) 0

def isDigitByte (b : Nat) : Bool := 48 ≤ b && b ≤ 57

/-- Modelled from the spec: `util.ParseLen` (§4.4(b)), missing from the
sources — "ASCII decimal byte sequence → integer, accepting an optional
leading minus sign only for the literal sentinel value −1, failing with a
parse error on any other non-digit content". -/
def ParseLen (bs : Bytes) : Option Int :=
  if bs = [45, 49] then some (-1)
  else if bs ≠ [] && bs.all isDigitByte then some (bytesToNat bs) else none

/-! ## The encoder -/

/-- Result of a Go `Encode()` call.  `typePanic got expected` is the
`panic` raised by the leading type-tag assertion of each `Encode` method
(carrying the actual and the expected tag of the format string);
`indexPanic` is the runtime panic of `Args[0]` on an empty `Args`. -/
inductive EncodeResult where
  | ok (bs : Bytes)
  | typePanic (got expected : String)
  | indexPanic
deriving DecidableEq, Repr

/-- Go `SimpleResp.Encode`. -/
def SimpleRespEncode (sr : BaseResp) : EncodeResult :=
  if sr.rtype ≠ SimpleType then .typePanic sr.rtype SimpleType
  else match sr.args with
    | [] => .indexPanic
    | a :: _ => .ok (SimpSep :: a ++ CRLF)

/-- Go `ErrorResp.Encode`. -/
def ErrorRespEncode (er : BaseResp) : EncodeResult :=
  if er.rtype ≠ ErrorType then .typePanic er.rtype ErrorType
  else match er.args with
    | [] => .indexPanic
    | a :: _ => .ok (ErrSep :: a ++ CRLF)

/-- Go `IntResp.Encode`. -/
def IntRespEncode (ir : BaseResp) : EncodeResult :=
  if ir.rtype ≠ IntType then .typePanic ir.rtype IntType
  else match ir.args with
    | [] => .indexPanic
    | a :: _ => .ok (IntSep :: a ++ CRLF)

/-- Go `BulkResp.Encode`. -/
def BulkResp.Encode (br : BulkResp) : EncodeResult :=
  if br.rtype ≠ BulkType then .typePanic br.rtype BulkType
  else if br.empty then .ok [36, 45, 49, 13, 10]
  else match br.args with
    | [] => .indexPanic
    | a :: _ => .ok (BulkSep :: itob a.length ++ CRLF ++ a ++ CRLF)

/-- The loop body of Go `ArrayResp.Encode`: concatenate the children's
encodings in order; a child's panic aborts the whole call. -/
def encodeBulkList : List BulkResp → EncodeResult
  | [] => .ok []
  | b :: rest =>
    match b.Encode with
    | .ok x =>
      match encodeBulkList rest with
      | .ok y => .ok (x ++ y)
      | r => r
    | r => r

/-- Go `ArrayResp.Encode`. -/
def ArrayResp.Encode (ar : ArrayResp) : EncodeResult :=
  if ar.rtype ≠ ArrayType then .typePanic ar.rtype ArrayType
  else match encodeBulkList ar.args with
    | .ok body => .ok (ArrSep :: itob ar.args.length ++ CRLF ++ body)
    | r => r

/-- Interface dispatch of `Encode()`. -/
def Resp.Encode : Resp → EncodeResult
  | .simple br => SimpleRespEncode br
  | .error br => ErrorRespEncode br
  | .int br => IntRespEncode br
  | .bulk br => br.Encode
  | .array ar => ar.Encode

/-! ## The decoder -/

/-- Result of a Go `ReadProtocol` call.  `ok v rest` is `(v, nil)` with
`rest` the unconsumed part of the stream; `err m` is `(nil, error)`;
`nilnil` is the `(nil, nil)` return reachable in the short-read branch
(which returns the shadowed outer `err`, by then `nil`, instead of the
`io.ReadFull` error `e`); `panicked` is a runtime panic (out-of-range
slice index). -/
inductive ReadResult where
  | ok (v : Resp) (rest : Bytes)
  | err (msg : String)
  | nilnil
  | panicked
deriving DecidableEq, Repr

/-- Go `bufio.Reader.ReadBytes('\n')`: the (inclusive) prefix up to the
first line-feed byte plus the remainder, or `none` when the stream ends
with no line-feed (in which case `ReadProtocol` returns the read error). -/
def readBytesLF : Bytes → Option (Bytes × Bytes)
  | [] => none
  | b :: bs =>
    if b = 10 then some ([10], bs)
    else
      match readBytesLF bs with
      | none => none
      | some (line, rest) => some (b :: line, rest)

/-- The Go slice `res[1:len(res)-2]` (only evaluated under
`3 ≤ res.length`; shorter `res` panics, handled at the call sites). -/
def lineBody (res : Bytes) : Bytes := (res.drop 1).take (res.length - 3)

/-- Result of the `n`-iteration child loop in the `ArrSep` case. -/
inductive ChildrenResult where
  | ok (children : List BulkResp) (rest : Bytes)
  | err (msg : String)
  | panicked
deriving DecidableEq, Repr

/-- The `for i := 0; i < n; i++` loop of the `ArrSep` case of
`ReadProtocol`, abstracted over the recursive call `rp`.  A child returning
`(nil, nil)` (the short-read slip) passes the `err != nil` check and then
fails the `*BulkResp` type assertion, so it surfaces as the framing error. -/
def readChildrenGo (rp : Bytes → ReadResult) : Nat → Bytes → ChildrenResult
  | 0, s => .ok [] s
  | n + 1, s =>
    match rp s with
    | .ok (.bulk b) rest =>
      match readChildrenGo rp n rest with
      | .ok children rest2 => .ok (b :: children) rest2
      | r => r
    | .ok _ _ => .err "In  ReadResp ArrSep, must read BulkResp"
    | .err m => .err m
    | .nilnil => .err "In  ReadResp ArrSep, must read BulkResp"
    | .panicked => .panicked

/-- Go `ReadProtocol`, stratified by fuel (structural recursion on `fuel`,
so the definition evaluates by kernel reduction).  Fuel only decreases when
an array descends into its children, and every such descent has consumed at
least one byte of the stream, so `readProtocol` below can never exhaust it. -/
def readProtocolF (fuel : Nat) (s : Bytes) : ReadResult :=
  match fuel with
  | 0 => .err "out of fuel"
  | f + 1 =>
    match readBytesLF s with
    | none => .err "EOF"
    | some (res, rest) =>
      match res with
      | [] => .panicked
      | c :: _ =>
        if c = SimpSep then
          if res.length < 3 then .panicked
          else .ok (.simple ⟨SimpleType, [lineBody res]⟩) rest
        else if c = ErrSep then
          if res.length < 3 then .panicked
          else .ok (.error ⟨ErrorType, [lineBody res]⟩) rest
        else if c = IntSep then
          if res.length < 3 then .panicked
          else .ok (.int ⟨IntType, [lineBody res]⟩) rest
        else if c = BulkSep then
          if res.length < 3 then .panicked
          else
            match ParseLen (lineBody res) with
            | none => .err "ParseLen error"
            | some l =>
              if l = -1 then .ok (.bulk ⟨BulkType, [], true⟩) rest
              else
                let k := l.toNat
                if rest.length < k + 2 then .nilnil
                else
                  let buf := rest.take (k + 2)
                  .ok (.bulk ⟨BulkType, [buf.take (buf.length - 2)], false⟩)
                    (rest.drop (k + 2))
        else if c = ArrSep then
          if res.length < 3 then .panicked
          else
            match ParseLen (lineBody res) with
            | none => .err "ParseLen error"
            | some n =>
              match readChildrenGo (readProtocolF f) n.toNat rest with
              | .ok children rest2 => .ok (.array ⟨ArrayType, [], children⟩) rest2
              | .err m => .err m
              | .panicked => .panicked
        else if c = 81 ∨ c = 113 then
          if res.length ≠ 6 then .err "raw command must be quit or ping"
          else .ok (.array ⟨ArrayType, [], [⟨BulkType, [QUIT], false⟩]⟩) rest
        else if c = 112 ∨ c = 80 then
          if res.length ≠ 6 then .err "raw command must be quit or ping"
          else .ok (.array ⟨ArrayType, [], [⟨BulkType, [PING], false⟩]⟩) rest
        else .err "ReadResp error, unexpected"

/-- The child loop at a given fuel level. -/
def readChildren (fuel : Nat) : Nat → Bytes → ChildrenResult :=
  readChildrenGo (readProtocolF fuel)

/-- Go `ReadProtocol` on a finite stream: the fuel `s.length + 1` strictly
exceeds any reachable recursion depth (each level consumes ≥ 1 byte). -/
def readProtocol (s : Bytes) : ReadResult := readProtocolF (s.length + 1) s

/-! ## Lemmas on the decimal codec -/

/-- Value of a least-significant-first digit list. -/
def valRev : List Nat → Nat
  | [] => 0
  | d :: ds => d + 10 * valRev ds

theorem valRev_digitsRevF : ∀ f n, n ≤ f → valRev (digitsRevF f n) = n := by
  intro f
  induction f with
  | zero => intro n hn; interval_cases n; simp [digitsRevF, valRev]
  | succ f ih =>
    intro n hn
    match n with
    | 0 => simp [digitsRevF, valRev]
    | m + 1 =>
      have hdiv : (m + 1) / 10 ≤ f := by
        have := Nat.div_lt_self (Nat.succ_pos m) (by norm_num : 1 < 10)
        omega
      simp only [digitsRevF, valRev, ih _ hdiv]
      omega

theorem digitsRevF_lt_ten : ∀ f n d, d ∈ digitsRevF f n → d < 10 := by
  intro f
  induction f with
  | zero => intro n d hd; simp [digitsRevF] at hd
  | succ f ih =>
    intro n d hd
    match n with
    | 0 => simp [digitsRevF] at hd
    | m + 1 =>
      simp only [digitsRevF, List.mem_cons] at hd
      rcases hd with h | h
      · subst h; exact Nat.mod_lt _ (by norm_num)
      · exact ih _ _ h

theorem mem_itob {n b : Nat} (h : b ∈ itob n) : 48 ≤ b ∧ b ≤ 57 := by
  unfold itob at h
  by_cases h0 : n = 0
  · simp [h0] at h; omega
  · simp only [h0, if_false, List.mem_map, List.mem_reverse] at h
    obtain ⟨d, hd, rfl⟩ := h
    have := digitsRevF_lt_ten n n d hd
    omega

theorem itob_ne_nil (n : Nat) : itob n ≠ [] := by
  unfold itob
  by_cases h0 : n = 0
  · simp [h0]
  · match n, h0 with
    | m + 1, _ => simp [digitsRevF]

theorem bytesToNat_rev_map : ∀ (l : List Nat) (a : Nat),
    List.foldl (fun a b => a * 10 + (b - 48)) a ((l.reverse).map (fun d => d + 48))
      = a * 10 ^ l.length + valRev l := by
  intro l
  induction l with
  | nil => intro a; simp [valRev]
  | cons d ds ih =>
    intro a
    simp only [List.reverse_cons, List.map_append, List.map_cons, List.map_nil,
      List.foldl_append, List.foldl_cons, List.foldl_nil, ih, valRev,
      List.length_cons, Nat.add_sub_cancel]
    ring

theorem bytesToNat_itob (n : Nat) : bytesToNat (itob n) = n := by
  unfold itob bytesToNat
  by_cases h0 : n = 0
  · simp [h0]
  · simp only [h0, if_false, bytesToNat_rev_map, Nat.zero_mul, Nat.zero_add]
    exact valRev_digitsRevF n n le_rfl

theorem ParseLen_itob (n : Nat) : ParseLen (itob n) = some (n : Int) := by
  unfold ParseLen
  have hne : itob n ≠ [45, 49] := by
    intro h
    have : (45 : Nat) ∈ itob n := by rw [h]; simp
    have := mem_itob this
    omega
  rw [if_neg hne]
  have hall : (itob n ≠ [] && (itob n).all isDigitByte) = true := by
    rw [Bool.and_eq_true]
    constructor
    · simpa using itob_ne_nil n
    · rw [List.all_eq_true]
      intro b hb
      have := mem_itob hb
      simp only [isDigitByte, Bool.and_eq_true, decide_eq_true_eq]
      omega
  rw [if_pos hall, bytesToNat_itob]

/-! ## Lemmas on line reading -/

theorem readBytesLF_line : ∀ (pre rest : Bytes), (∀ b ∈ pre, b ≠ 10) →
    readBytesLF (pre ++ 10 :: rest) = some (pre ++ [10], rest) := by
  intro pre
  induction pre with
  | nil => intro rest _; simp [readBytesLF]
  | cons p ps ih =>
    intro rest h
    have hp : p ≠ 10 := h p (List.mem_cons_self _ _)
    have hps : ∀ b ∈ ps, b ≠ 10 := fun b hb => h b (List.mem_cons_of_mem _ hb)
    simp only [List.cons_append, readBytesLF, if_neg hp, List.append_eq, ih rest hps]

theorem lineBody_cons (c : Nat) (x : Bytes) : lineBody (c :: x ++ [13, 10]) = x := by
  simp only [lineBody, List.cons_append, List.drop_succ_cons, List.drop_zero,
    List.length_cons, List.length_append, List.length_cons, List.length_nil]
  have h : x.length + (0 + 1 + 1) + 1 - 3 = x.length := by omega
  rw [h, List.take_left]

theorem header_no10 {c : Nat} {body : Bytes} (hc : c ≠ 10) (hb : ∀ b ∈ body, b ≠ 10) :
    ∀ b ∈ c :: body ++ [13], b ≠ 10 := by
  intro b hb2
  simp only [List.cons_append, List.mem_cons, List.mem_append, List.mem_singleton] at hb2
  rcases hb2 with rfl | h | h
  · exact hc
  · exact hb b h
  · simp at h; omega

theorem readLine_header (c : Nat) (body rest : Bytes) (hc : c ≠ 10)
    (hb : ∀ b ∈ body, b ≠ 10) :
    readBytesLF ((c :: body ++ CRLF) ++ rest) = some (c :: body ++ CRLF, rest) := by
  have h1 : (c :: body ++ CRLF) ++ rest = (c :: body ++ [13]) ++ 10 :: rest := by
    simp [CRLF]
  have h2 : (c :: body ++ [13]) ++ [10] = c :: body ++ CRLF := by simp [CRLF]
  rw [h1, readBytesLF_line _ _ (header_no10 hc hb), h2]

/-- Decoding a well-formed simple-string frame. -/
theorem decode_simple (f : Nat) (p rest : Bytes) (hp : ∀ b ∈ p, b ≠ 10) :
    readProtocolF (f + 1) ((SimpSep :: p ++ CRLF) ++ rest)
      = .ok (.simple ⟨SimpleType, [p]⟩) rest := by
  have hline := readLine_header SimpSep p rest (by simp [SimpSep]) hp
  have hlen : ¬ ((SimpSep :: p ++ CRLF : Bytes).length < 3) := by
    simp [CRLF]
  have hbody : lineBody (SimpSep :: p ++ CRLF) = p := by
    have : (SimpSep :: p ++ CRLF : Bytes) = SimpSep :: p ++ [13, 10] := by simp [CRLF]
    rw [this, lineBody_cons]
  simp only [readProtocolF, hline, hlen, if_false, hbody]
  rfl

/-- Decoding a well-formed error frame. -/
theorem decode_error (f : Nat) (p rest : Bytes) (hp : ∀ b ∈ p, b ≠ 10) :
    readProtocolF (f + 1) ((ErrSep :: p ++ CRLF) ++ rest)
      = .ok (.error ⟨ErrorType, [p]⟩) rest := by
  have hline := readLine_header ErrSep p rest (by simp [ErrSep]) hp
  have hlen : ¬ ((ErrSep :: p ++ CRLF : Bytes).length < 3) := by
    simp [CRLF]
  have hbody : lineBody (ErrSep :: p ++ CRLF) = p := by
    have : (ErrSep :: p ++ CRLF : Bytes) = ErrSep :: p ++ [13, 10] := by simp [CRLF]
    rw [this, lineBody_cons]
  simp only [readProtocolF, hline, hlen, if_false, hbody]
  rfl

/-- Decoding a well-formed integer frame. -/
theorem decode_int (f : Nat) (p rest : Bytes) (hp : ∀ b ∈ p, b ≠ 10) :
    readProtocolF (f + 1) ((IntSep :: p ++ CRLF) ++ rest)
      = .ok (.int ⟨IntType, [p]⟩) rest := by
  have hline := readLine_header IntSep p rest (by simp [IntSep]) hp
  have hlen : ¬ ((IntSep :: p ++ CRLF : Bytes).length < 3) := by
    simp [CRLF]
  have hbody : lineBody (IntSep :: p ++ CRLF) = p := by
    have : (IntSep :: p ++ CRLF : Bytes) = IntSep :: p ++ [13, 10] := by simp [CRLF]
    rw [this, lineBody_cons]
  simp only [readProtocolF, hline, hlen, if_false, hbody]
  rfl

/-- Decoding the 5-byte null-bulk frame consumes exactly those 5 bytes. -/
theorem decode_nullbulk (f : Nat) (rest : Bytes) :
    readProtocolF (f + 1) ([36, 45, 49, 13, 10] ++ rest)
      = .ok (.bulk ⟨BulkType, [], true⟩) rest := by
  have hsplit : ([36, 45, 49, 13, 10] : Bytes) ++ rest
      = (BulkSep :: [45, 49] ++ CRLF) ++ rest := by simp [BulkSep, CRLF]
  have hline := readLine_header BulkSep [45, 49] rest (by simp [BulkSep])
    (by intro b hb; simp at hb; omega)
  have hlen : ¬ ((BulkSep :: [45, 49] ++ CRLF : Bytes).length < 3) := by
    simp [CRLF]
  have hbody : lineBody (BulkSep :: [45, 49] ++ CRLF) = [45, 49] := by
    have : (BulkSep :: [45, 49] ++ CRLF : Bytes) = BulkSep :: [45, 49] ++ [13, 10] := by
      simp [CRLF]
    rw [this, lineBody_cons]
  rw [hsplit]
  simp only [readProtocolF, hline, hlen, if_false, hbody]
  rfl

/-- Decoding a well-formed non-null bulk frame of arbitrary binary payload
`p` consumes exactly the frame. -/
theorem decode_bulk (f : Nat) (p rest : Bytes) :
    readProtocolF (f + 1) ((BulkSep :: itob p.length ++ CRLF ++ p ++ CRLF) ++ rest)
      = .ok (.bulk ⟨BulkType, [p], false⟩) rest := by
  have hdig : ∀ b ∈ itob p.length, b ≠ 10 := by
    intro b hb
    have := mem_itob hb
    omega
  have hsplit : (BulkSep :: itob p.length ++ CRLF ++ p ++ CRLF) ++ rest
      = (BulkSep :: itob p.length ++ CRLF) ++ (p ++ (CRLF ++ rest)) := by simp
  have hline := readLine_header BulkSep (itob p.length) (p ++ (CRLF ++ rest))
    (by simp [BulkSep]) hdig
  have hlen : ¬ ((BulkSep :: itob p.length ++ CRLF : Bytes).length < 3) := by
    simp [CRLF]
  have hbody : lineBody (BulkSep :: itob p.length ++ CRLF) = itob p.length := by
    have : (BulkSep :: itob p.length ++ CRLF : Bytes)
        = BulkSep :: itob p.length ++ [13, 10] := by simp [CRLF]
    rw [this, lineBody_cons]
  have hneg : ¬ ((p.length : Int) = -1) := by omega
  have hshort : ¬ ((p ++ (CRLF ++ rest)).length < (p.length : Int).toNat + 2) := by
    simp [CRLF]
  have htake : (p ++ (CRLF ++ rest)).take ((p.length : Int).toNat + 2) = p ++ CRLF := by
    have h1 : ((p ++ CRLF : Bytes)).length = (p.length : Int).toNat + 2 := by simp [CRLF]
    have h2 : p ++ (CRLF ++ rest) = (p ++ CRLF) ++ rest := by simp
    rw [h2, List.take_left' h1]
  have hdrop : (p ++ (CRLF ++ rest)).drop ((p.length : Int).toNat + 2) = rest := by
    have h1 : ((p ++ CRLF : Bytes)).length = (p.length : Int).toNat + 2 := by simp [CRLF]
    have h2 : p ++ (CRLF ++ rest) = (p ++ CRLF) ++ rest := by simp
    rw [h2, List.drop_left' h1]
  have htake2 : (p ++ CRLF).take ((p ++ CRLF : Bytes).length - 2) = p := by
    have h1 : ((p ++ CRLF : Bytes)).length - 2 = p.length := by simp [CRLF]
    rw [h1, List.take_left]
  rw [hsplit]
  simp only [readProtocolF, hline, hlen, if_false, hbody, ParseLen_itob, hneg,
    hshort, htake, hdrop, htake2]
  rfl

/-- The normalized value synthesized for an inline PING command. -/
def pingArr : Resp := .array ⟨ArrayType, [], [⟨BulkType, [PING], false⟩]⟩

/-- The normalized value synthesized for an inline QUIT command. -/
def quitArr : Resp := .array ⟨ArrayType, [], [⟨BulkType, [QUIT], false⟩]⟩

/-- Any 6-byte line led by `P`/`p` decodes to the normalized PING array. -/
theorem decode_inline_ping (f c : Nat) (pre rest : Bytes) (hc : c = 80 ∨ c = 112)
    (hlen : pre.length = 4) (hpre : ∀ b ∈ pre, b ≠ 10) :
    readProtocolF (f + 1) ((c :: pre) ++ 10 :: rest) = .ok pingArr rest := by
  have hc10 : ∀ b ∈ c :: pre, b ≠ 10 := by
    intro b hb
    rcases List.mem_cons.1 hb with rfl | h
    · rcases hc with rfl | rfl <;> omega
    · exact hpre b h
  have hline := readBytesLF_line (c :: pre) rest hc10
  have hl : (c :: pre ++ [10] : Bytes).length = 6 := by simp [hlen]
  rcases hc with rfl | rfl <;>
    simp only [readProtocolF, hline, hl] <;> rfl

/-- Any 6-byte line led by `Q`/`q` decodes to the normalized QUIT array. -/
theorem decode_inline_quit (f c : Nat) (pre rest : Bytes) (hc : c = 81 ∨ c = 113)
    (hlen : pre.length = 4) (hpre : ∀ b ∈ pre, b ≠ 10) :
    readProtocolF (f + 1) ((c :: pre) ++ 10 :: rest) = .ok quitArr rest := by
  have hc10 : ∀ b ∈ c :: pre, b ≠ 10 := by
    intro b hb
    rcases List.mem_cons.1 hb with rfl | h
    · rcases hc with rfl | rfl <;> omega
    · exact hpre b h
  have hline := readBytesLF_line (c :: pre) rest hc10
  have hl : (c :: pre ++ [10] : Bytes).length = 6 := by simp [hlen]
  rcases hc with rfl | rfl <;>
    simp only [readProtocolF, hline, hl] <;> rfl

/-- A line led by `P`/`p`/`Q`/`q` whose length is not 6 bytes is rejected. -/
theorem decode_inline_badlen (f c : Nat) (pre rest : Bytes)
    (hc : c = 80 ∨ c = 112 ∨ c = 81 ∨ c = 113) (hlen : pre.length ≠ 4)
    (hpre : ∀ b ∈ pre, b ≠ 10) :
    readProtocolF (f + 1) ((c :: pre) ++ 10 :: rest)
      = .err "raw command must be quit or ping" := by
  have hc10 : ∀ b ∈ c :: pre, b ≠ 10 := by
    intro b hb
    rcases List.mem_cons.1 hb with rfl | h
    · rcases hc with rfl | rfl | rfl | rfl <;> omega
    · exact hpre b h
  have hline := readBytesLF_line (c :: pre) rest hc10
  have hl : (c :: pre ++ [10] : Bytes).length ≠ 6 := by simp; omega
  rcases hc with rfl | rfl | rfl | rfl <;>
    simp only [readProtocolF, hline, ne_eq, hl, not_false_eq_true, if_true] <;> rfl

/-! ## Lemmas on the array child loop -/

theorem readChildrenGo_nil (rp : Bytes → ReadResult) (s : Bytes) :
    readChildrenGo rp 0 s = .ok [] s := rfl

theorem readChildrenGo_cons (rp : Bytes → ReadResult) (n : Nat) (s rest rest2 : Bytes)
    (b : BulkResp) (cs : List BulkResp)
    (h1 : rp s = .ok (.bulk b) rest)
    (h2 : readChildrenGo rp n rest = .ok cs rest2) :
    readChildrenGo rp (n + 1) s = .ok (b :: cs) rest2 := by
  simp only [readChildrenGo, h1, h2]

/-- A decoded child of any non-Bulk concrete type fails the `*BulkResp`
type assertion: the whole array decode aborts with the framing error. -/
theorem readChildrenGo_nonbulk (rp : Bytes → ReadResult) (n : Nat) (s rest : Bytes)
    (v : Resp) (h1 : rp s = .ok v rest) (h2 : ∀ b, v ≠ .bulk b) :
    readChildrenGo rp (n + 1) s = .err "In  ReadResp ArrSep, must read BulkResp" := by
  cases v with
  | bulk b => exact absurd rfl (h2 b)
  | simple br => simp only [readChildrenGo, h1]
  | error br => simp only [readChildrenGo, h1]
  | int br => simp only [readChildrenGo, h1]
  | array ar => simp only [readChildrenGo, h1]

/-- Decoding an array header of declared count `n` runs the child loop `n`
times on the remaining stream and wraps its outcome. -/
theorem decode_array (f n : Nat) (tail : Bytes) :
    readProtocolF (f + 2) ((ArrSep :: itob n ++ CRLF) ++ tail)
      = match readChildrenGo (readProtocolF (f + 1)) n tail with
        | .ok children rest2 => .ok (.array ⟨ArrayType, [], children⟩) rest2
        | .err m => .err m
        | .panicked => .panicked := by
  have hdig : ∀ b ∈ itob n, b ≠ 10 := by
    intro b hb
    have := mem_itob hb
    omega
  have hline := readLine_header ArrSep (itob n) tail (by simp [ArrSep]) hdig
  have hlen : ¬ ((ArrSep :: itob n ++ CRLF : Bytes).length < 3) := by
    simp [CRLF]
  have hbody : lineBody (ArrSep :: itob n ++ CRLF) = itob n := by
    have : (ArrSep :: itob n ++ CRLF : Bytes) = ArrSep :: itob n ++ [13, 10] := by
      simp [CRLF]
    rw [this, lineBody_cons]
  have htn : ((n : Int)).toNat = n := Int.toNat_natCast n
  show readProtocolF ((f + 1) + 1) _ = _
  simp only [readProtocolF, hline, hlen, if_false, hbody, ParseLen_itob, htn]
  rfl

/-! ## Well-formed frames and round trips -/

/-- Well-formed bulk frames (§6 of the spec): the 5-byte null marker, or a
header carrying the canonical decimal of the payload length followed by the
payload (arbitrary binary content) and the terminator. -/
inductive WFBulkFrame : Bytes → Prop where
  | null : WFBulkFrame [36, 45, 49, 13, 10]
  | bulk (p : Bytes) : WFBulkFrame (BulkSep :: itob p.length ++ CRLF ++ p ++ CRLF)

/-- Well-formed wire frames of the five kinds: line-oriented payloads are
free of the line-feed byte, lengths and counts are canonical decimals, and
array children are bulk frames (the subset handled by this decoder). -/
inductive WellFormedFrame : Bytes → Prop where
  | simple (p : Bytes) (h : ∀ b ∈ p, b ≠ 10) : WellFormedFrame (SimpSep :: p ++ CRLF)
  | error (p : Bytes) (h : ∀ b ∈ p, b ≠ 10) : WellFormedFrame (ErrSep :: p ++ CRLF)
  | int (p : Bytes) (h : ∀ b ∈ p, b ≠ 10) : WellFormedFrame (IntSep :: p ++ CRLF)
  | bulk (bs : Bytes) (h : WFBulkFrame bs) : WellFormedFrame bs
  | array (frames : List Bytes) (h : ∀ fr ∈ frames, WFBulkFrame fr) :
      WellFormedFrame (ArrSep :: itob frames.length ++ CRLF ++ frames.flatten)

/-- A well-formed bulk frame decodes — at every fuel level — to one fixed
`BulkResp` that re-encodes to the identical bytes, consuming exactly the
frame. -/
theorem WFBulkFrame_decode {fb : Bytes} (h : WFBulkFrame fb) :
    ∃ b : BulkResp, BulkResp.Encode b = .ok fb
      ∧ ∀ (fl : Nat) (rest : Bytes),
          readProtocolF (fl + 1) (fb ++ rest) = .ok (.bulk b) rest := by
  cases h with
  | null => exact ⟨⟨BulkType, [], true⟩, by rfl, fun fl rest => decode_nullbulk fl rest⟩
  | bulk p =>
    refine ⟨⟨BulkType, [p], false⟩, ?_, fun fl rest => decode_bulk fl p rest⟩
    simp [BulkResp.Encode]

/-- The child loop over the concatenation of well-formed bulk frames
decodes them in order, and the decoded children re-encode to the original
concatenation. -/
theorem children_decode : ∀ (frames : List Bytes),
    (∀ fr ∈ frames, WFBulkFrame fr) →
    ∃ children : List BulkResp,
      children.length = frames.length
        ∧ encodeBulkList children = .ok frames.flatten
        ∧ ∀ (fl : Nat) (rest : Bytes),
            readChildrenGo (readProtocolF (fl + 1)) frames.length (frames.flatten ++ rest)
              = .ok children rest := by
  intro frames
  induction frames with
  | nil =>
    intro _
    exact ⟨[], rfl, rfl, fun fl rest => by simp [readChildrenGo_nil]⟩
  | cons fr frames ih =>
    intro h
    obtain ⟨b, henc, hdec⟩ := WFBulkFrame_decode (h fr (List.mem_cons_self _ _))
    obtain ⟨cs, hclen, hencs, hcs⟩ := ih (fun g hg => h g (List.mem_cons_of_mem _ hg))
    refine ⟨b :: cs, by simp [hclen], ?_, ?_⟩
    · simp only [encodeBulkList, henc, hencs, List.flatten_cons]
    · intro fl rest
      have hshape : (fr :: frames).flatten ++ rest = fr ++ (frames.flatten ++ rest) := by
        simp
      rw [List.length_cons, hshape]
      exact readChildrenGo_cons _ _ _ _ _ _ _ (hdec fl (frames.flatten ++ rest)) (hcs fl rest)

/-- Frame round trip: a well-formed frame decodes to a value, consuming
exactly the frame, and re-encoding that value reproduces the frame. -/
theorem wf_frame_roundtrip {bs : Bytes} (h : WellFormedFrame bs) (rest : Bytes) :
    ∃ v : Resp, readProtocol (bs ++ rest) = .ok v rest ∧ Resp.Encode v = .ok bs := by
  cases h with
  | simple p hp =>
    refine ⟨.simple ⟨SimpleType, [p]⟩, ?_, by simp [Resp.Encode, SimpleRespEncode]⟩
    exact decode_simple _ p rest hp
  | error p hp =>
    refine ⟨.error ⟨ErrorType, [p]⟩, ?_, by simp [Resp.Encode, ErrorRespEncode]⟩
    exact decode_error _ p rest hp
  | int p hp =>
    refine ⟨.int ⟨IntType, [p]⟩, ?_, by simp [Resp.Encode, IntRespEncode]⟩
    exact decode_int _ p rest hp
  | bulk fb hb =>
    obtain ⟨b, henc, hdec⟩ := WFBulkFrame_decode hb
    exact ⟨.bulk b, hdec _ rest, henc⟩
  | array frames hf =>
    obtain ⟨children, hclen, hencs, hdec⟩ := children_decode frames hf
    refine ⟨.array ⟨ArrayType, [], children⟩, ?_, ?_⟩
    · have hgen : ∀ f, readProtocolF (f + 2)
          ((ArrSep :: itob frames.length ++ CRLF) ++ (frames.flatten ++ rest))
            = .ok (.array ⟨ArrayType, [], children⟩) rest := by
        intro f
        rw [decode_array, hdec f rest]
      have hshape : (ArrSep :: itob frames.length ++ CRLF ++ frames.flatten) ++ rest
          = (ArrSep :: itob frames.length ++ CRLF) ++ (frames.flatten ++ rest) := by
        simp
      rw [readProtocol, hshape]
      have hfuel : ((ArrSep :: itob frames.length ++ CRLF) ++ (frames.flatten ++ rest)).length + 1
          = (((ArrSep :: itob frames.length ++ CRLF) ++ (frames.flatten ++ rest)).length - 1) + 2 := by
        simp only [List.length_append, List.length_cons]
        omega
      rw [hfuel]
      exact hgen _
    · show ArrayResp.Encode _ = _
      simp only [ArrayResp.Encode, hencs]
      rw [if_neg (by simp), hclen]

/-! ## Per-variant construction invariants (§3 of the spec) -/

/-- Line-oriented payloads must not contain the terminator bytes. -/
def noTerm (a : Bytes) : Prop := ∀ b ∈ a, b ≠ 13 ∧ b ≠ 10

/-- §3 invariant for bulk values: matching tag, and either the null marker
with no element or exactly one element of arbitrary binary content. -/
def bulkWF (b : BulkResp) : Prop :=
  b.rtype = BulkType ∧
    ((b.empty = true ∧ b.args = []) ∨ (b.empty = false ∧ ∃ a, b.args = [a]))

/-- §3 per-variant invariants of constructible protocol values. -/
def respWF : Resp → Prop
  | .simple br => br.rtype = SimpleType ∧ ∃ a, br.args = [a] ∧ noTerm a
  | .error br => br.rtype = ErrorType ∧ ∃ a, br.args = [a] ∧ noTerm a
  | .int br => br.rtype = IntType ∧ ∃ a, br.args = [a] ∧ noTerm a
  | .bulk b => bulkWF b
  | .array ar => ar.rtype = ArrayType ∧ ar.baseArgs = [] ∧ ∀ b ∈ ar.args, bulkWF b

/-- A §3-well-formed bulk value encodes to a frame that decodes back to the
very same value at every fuel level. -/
theorem bulk_value_roundtrip {b : BulkResp} (h : bulkWF b) :
    ∃ fb : Bytes, BulkResp.Encode b = .ok fb
      ∧ ∀ (fl : Nat) (rest : Bytes),
          readProtocolF (fl + 1) (fb ++ rest) = .ok (.bulk b) rest := by
  obtain ⟨rt, args, emp⟩ := b
  obtain ⟨ht, hcase⟩ := h
  simp only at ht
  subst ht
  rcases hcase with ⟨he, ha⟩ | ⟨he, a, ha⟩ <;> simp only at he ha <;> subst he <;> subst ha
  · exact ⟨[36, 45, 49, 13, 10], by rfl, fun fl rest => decode_nullbulk fl rest⟩
  · exact ⟨BulkSep :: itob a.length ++ CRLF ++ a ++ CRLF,
      by simp [BulkResp.Encode], fun fl rest => decode_bulk fl a rest⟩

/-- A list of §3-well-formed bulk children encodes to a byte sequence from
which the child loop recovers exactly those children, in order. -/
theorem children_roundtrip : ∀ (children : List BulkResp),
    (∀ b ∈ children, bulkWF b) →
    ∃ body : Bytes, encodeBulkList children = .ok body
      ∧ ∀ (fl : Nat) (rest : Bytes),
          readChildrenGo (readProtocolF (fl + 1)) children.length (body ++ rest)
            = .ok children rest := by
  intro children
  induction children with
  | nil => exact fun _ => ⟨[], rfl, fun fl rest => by simp [readChildrenGo_nil]⟩
  | cons b cs ih =>
    intro h
    obtain ⟨fb, henc, hdec⟩ := bulk_value_roundtrip (h b (List.mem_cons_self _ _))
    obtain ⟨body, hencs, hcs⟩ := ih (fun g hg => h g (List.mem_cons_of_mem _ hg))
    refine ⟨fb ++ body, ?_, ?_⟩
    · simp only [encodeBulkList, henc, hencs]
    · intro fl rest
      have hshape : (fb ++ body) ++ rest = fb ++ (body ++ rest) := by simp
      rw [List.length_cons, hshape]
      exact readChildrenGo_cons _ _ _ _ _ _ _ (hdec fl (body ++ rest)) (hcs fl rest)

/-- Value round trip: every §3-well-formed value encodes successfully, and
decoding the produced bytes yields the identical value, consuming all of
the bytes. -/
theorem value_roundtrip (v : Resp) (h : respWF v) :
    ∃ bs : Bytes, Resp.Encode v = .ok bs ∧ readProtocol bs = .ok v [] := by
  cases v with
  | simple br =>
    obtain ⟨rt, args⟩ := br
    obtain ⟨ht, a, ha, hno⟩ := h
    simp only at ht ha
    subst ht; subst ha
    refine ⟨SimpSep :: a ++ CRLF, by simp [Resp.Encode, SimpleRespEncode], ?_⟩
    have := decode_simple ((SimpSep :: a ++ CRLF : Bytes).length) a []
      (fun b hb => (hno b hb).2)
    simpa [readProtocol] using this
  | error br =>
    obtain ⟨rt, args⟩ := br
    obtain ⟨ht, a, ha, hno⟩ := h
    simp only at ht ha
    subst ht; subst ha
    refine ⟨ErrSep :: a ++ CRLF, by simp [Resp.Encode, ErrorRespEncode], ?_⟩
    have := decode_error ((ErrSep :: a ++ CRLF : Bytes).length) a []
      (fun b hb => (hno b hb).2)
    simpa [readProtocol] using this
  | int br =>
    obtain ⟨rt, args⟩ := br
    obtain ⟨ht, a, ha, hno⟩ := h
    simp only at ht ha
    subst ht; subst ha
    refine ⟨IntSep :: a ++ CRLF, by simp [Resp.Encode, IntRespEncode], ?_⟩
    have := decode_int ((IntSep :: a ++ CRLF : Bytes).length) a []
      (fun b hb => (hno b hb).2)
    simpa [readProtocol] using this
  | bulk b =>
    obtain ⟨fb, henc, hdec⟩ := bulk_value_roundtrip h
    refine ⟨fb, henc, ?_⟩
    have := hdec fb.length []
    simpa [readProtocol] using this
  | array ar =>
    obtain ⟨rt, bargs, args⟩ := ar
    obtain ⟨ht, hb, hkids⟩ := h
    simp only at ht hb hkids
    subst ht; subst hb
    obtain ⟨body, hencs, hdec⟩ := children_roundtrip args hkids
    refine ⟨ArrSep :: itob args.length ++ CRLF ++ body, ?_, ?_⟩
    · show ArrayResp.Encode _ = _
      simp only [ArrayResp.Encode, hencs]
      rw [if_neg (by simp)]
    · have hgen : ∀ f, readProtocolF (f + 2)
          ((ArrSep :: itob args.length ++ CRLF) ++ body)
            = .ok (.array ⟨ArrayType, [], args⟩) [] := by
        intro f
        have hck : readChildrenGo (readProtocolF (f + 1)) args.length body
            = .ok args [] := by simpa using hdec f []
        rw [decode_array, hck]
      have hshape : (ArrSep :: itob args.length ++ CRLF ++ body : Bytes)
          = (ArrSep :: itob args.length ++ CRLF) ++ body := by simp
      rw [readProtocol, hshape]
      have hfuel : ((ArrSep :: itob args.length ++ CRLF) ++ body).length + 1
          = (((ArrSep :: itob args.length ++ CRLF) ++ body).length - 1) + 2 := by
        simp only [List.length_append, List.length_cons]
        omega
      rw [hfuel]
      exact hgen _

/-! ## Further helper lemmas for the claims -/

/-- The short-read branch of the bulk case: the `if e != nil || n != l+2`
check returns the shadowed outer `err`, which is `nil` there — so the call
yields the Go pair `(nil, nil)`. -/
theorem short_read_nilnil (f n : Nat) (avail : Bytes) (h : avail.length < n + 2) :
    readProtocolF (f + 1) ((BulkSep :: itob n ++ CRLF) ++ avail) = .nilnil := by
  have hdig : ∀ b ∈ itob n, b ≠ 10 := by
    intro b hb
    have := mem_itob hb
    omega
  have hline := readLine_header BulkSep (itob n) avail (by simp [BulkSep]) hdig
  have hlen : ¬ ((BulkSep :: itob n ++ CRLF : Bytes).length < 3) := by
    simp [CRLF]
  have hbody : lineBody (BulkSep :: itob n ++ CRLF) = itob n := by
    have : (BulkSep :: itob n ++ CRLF : Bytes) = BulkSep :: itob n ++ [13, 10] := by
      simp [CRLF]
    rw [this, lineBody_cons]
  have hneg : ¬ ((n : Int) = -1) := by omega
  have hshort : avail.length < ((n : Int)).toNat + 2 := by
    rw [Int.toNat_natCast]
    exact h
  simp only [readProtocolF, hline, hlen, if_false, hbody, ParseLen_itob, hneg,
    hshort, if_true]
  rfl

/-- Decoding an array frame of `n` well-formed bulk child frames yields the
array of the children decoded in order (they re-encode to the original
concatenation, child by child). -/
theorem array_frames_decode (frames : List Bytes) (hf : ∀ fr ∈ frames, WFBulkFrame fr) :
    ∃ children : List BulkResp,
      children.length = frames.length
        ∧ encodeBulkList children = .ok frames.flatten
        ∧ ∀ rest : Bytes,
            readProtocol ((ArrSep :: itob frames.length ++ CRLF ++ frames.flatten) ++ rest)
              = .ok (.array ⟨ArrayType, [], children⟩) rest := by
  obtain ⟨children, hclen, hencs, hdec⟩ := children_decode frames hf
  refine ⟨children, hclen, hencs, ?_⟩
  intro rest
  have hgen : ∀ f, readProtocolF (f + 2)
      ((ArrSep :: itob frames.length ++ CRLF) ++ (frames.flatten ++ rest))
        = .ok (.array ⟨ArrayType, [], children⟩) rest := by
    intro f
    rw [decode_array, hdec f rest]
  have hshape : (ArrSep :: itob frames.length ++ CRLF ++ frames.flatten) ++ rest
      = (ArrSep :: itob frames.length ++ CRLF) ++ (frames.flatten ++ rest) := by
    simp
  rw [readProtocol, hshape]
  have hfuel : ((ArrSep :: itob frames.length ++ CRLF) ++ (frames.flatten ++ rest)).length + 1
      = (((ArrSep :: itob frames.length ++ CRLF) ++ (frames.flatten ++ rest)).length - 1) + 2 := by
    simp only [List.length_append, List.length_cons]
    omega
  rw [hfuel]
  exact hgen _

/-- The actual type tag carried by a value (its `Rtype` field). -/
def tagOf : Resp → String
  | .simple br => br.rtype
  | .error br => br.rtype
  | .int br => br.rtype
  | .bulk b => b.rtype
  | .array ar => ar.rtype

/-- The tag expected by the `Encode` method of the value's concrete type. -/
def expectedTag : Resp → String
  | .simple _ => SimpleType
  | .error _ => ErrorType
  | .int _ => IntType
  | .bulk _ => BulkType
  | .array _ => ArrayType

/-- A type panic raised by `BulkResp.Encode` always expects the bulk tag. -/
theorem BulkResp_encode_panic_expected {b : BulkResp} {g e : String}
    (h : BulkResp.Encode b = .typePanic g e) : e = BulkType := by
  unfold BulkResp.Encode at h
  by_cases hrt : b.rtype = BulkType
  · simp only [hrt, ne_eq, not_true_eq_false, if_false] at h
    cases hemp : b.empty <;> simp only [hemp, if_true, if_false, Bool.false_eq_true] at h
    · cases hargs : b.args <;> simp [hargs] at h
    · simp at h
  · simp only [ne_eq, hrt, not_false_eq_true, if_true, EncodeResult.typePanic.injEq] at h
    exact h.2.symm

/-- The child loop of `ArrayResp.Encode` can only raise a bulk-expected
type panic, never one expecting the array tag. -/
theorem encodeBulkList_no_array_panic : ∀ (cs : List BulkResp) (g : String),
    encodeBulkList cs ≠ .typePanic g ArrayType := by
  intro cs
  induction cs with
  | nil => intro g h; exact EncodeResult.noConfusion h
  | cons b cs ih =>
    intro g h
    unfold encodeBulkList at h
    cases hbe : BulkResp.Encode b with
    | ok x =>
      simp only [hbe] at h
      cases hck : encodeBulkList cs with
      | ok y => simp only [hck] at h; exact EncodeResult.noConfusion h
      | typePanic g2 e2 =>
        simp only [hck] at h
        injection h with h1 h2
        subst h2
        exact ih g2 hck
      | indexPanic => simp only [hck] at h; exact EncodeResult.noConfusion h
    | typePanic g2 e2 =>
      simp only [hbe] at h
      injection h with h1 h2
      have he2 := BulkResp_encode_panic_expected hbe
      rw [he2] at h2
      exact absurd h2 (by decide)
    | indexPanic =>
      simp only [hbe] at h
      exact EncodeResult.noConfusion h

/-! ## The claims -/

/-- C1: a bulk header declaring a non-negative length `L` followed by fewer
than `L + 2` available bytes does NOT surface an I/O error: the short-read
branch returns the shadowed `err` (which is `nil` at that point) instead of
the `io.ReadFull` error `e`, so `ReadProtocol` returns the Go pair
`(nil, nil)` — no value, but also no error. -/
theorem claim_c1_short_read (n : Nat) (avail : Bytes) (h : avail.length < n + 2) :
    readProtocol ((BulkSep :: itob n ++ CRLF) ++ avail) = .nilnil :=
  short_read_nilnil (((BulkSep :: itob n ++ CRLF) ++ avail).length) n avail h

/-- Witness for C1 at the concrete input `$10\r\nhello` (header declares
length 10, only 5 payload bytes follow before end of stream). -/
theorem claim_c1_short_read_witness :
    readProtocol ((BulkSep :: itob 10 ++ CRLF) ++ [104, 101, 108, 108, 111]) = .nilnil :=
  claim_c1_short_read 10 [104, 101, 108, 108, 111] (by decide)

/-- C2: the decoder does not always fail cleanly on malformed input: the
2-byte stream `+\n` (a simple-string sigil whose line lacks the terminator)
makes `ReadProtocol` evaluate the slice `res[1:len(res)-2]` with
`len(res) = 2`, a Go out-of-range slice panic — a crash rather than an
error surfaced to the caller. -/
theorem claim_c2_crash : readProtocol [43, 10] = .panicked := by decide

/-- C3: every well-formed wire frame of each of the five kinds decodes to a
value — consuming exactly the frame — whose re-encoding reproduces the
original byte sequence exactly. -/
theorem claim_c3_wire_roundtrip (bs : Bytes) (h : WellFormedFrame bs) (rest : Bytes) :
    ∃ v : Resp, readProtocol (bs ++ rest) = .ok v rest ∧ Resp.Encode v = .ok bs :=
  wf_frame_roundtrip h rest

/-- Witness for C3 at the spec's example frame
`*2\r\n$3\r\nfoo\r\n$3\r\nbar\r\n`. -/
theorem claim_c3_wire_roundtrip_witness :
    ∃ v : Resp, readProtocol ([42, 50, 13, 10, 36, 51, 13, 10, 102, 111, 111, 13, 10,
        36, 51, 13, 10, 98, 97, 114, 13, 10] ++ []) = .ok v []
      ∧ Resp.Encode v = .ok [42, 50, 13, 10, 36, 51, 13, 10, 102, 111, 111, 13, 10,
        36, 51, 13, 10, 98, 97, 114, 13, 10] := by
  apply claim_c3_wire_roundtrip
  exact WellFormedFrame.array
    [[36, 51, 13, 10, 102, 111, 111, 13, 10], [36, 51, 13, 10, 98, 97, 114, 13, 10]]
    (by
      intro fr hfr
      simp only [List.mem_cons, List.not_mem_nil, or_false] at hfr
      rcases hfr with rfl | rfl
      · exact WFBulkFrame.bulk [102, 111, 111]
      · exact WFBulkFrame.bulk [98, 97, 114])

/-- C4: every constructible value satisfying the §3 per-variant invariants
encodes successfully, and decoding the produced bytes yields a value equal
to the original (consuming all the bytes). -/
theorem claim_c4_value_roundtrip (v : Resp) (h : respWF v) :
    ∃ bs : Bytes, Resp.Encode v = .ok bs ∧ readProtocol bs = .ok v [] :=
  value_roundtrip v h

/-- Witness for C4 at the two-element array value `["foo", "bar"]`. -/
theorem claim_c4_value_roundtrip_witness :
    ∃ bs : Bytes,
      Resp.Encode (.array ⟨ArrayType, [],
          [⟨BulkType, [[102, 111, 111]], false⟩, ⟨BulkType, [[98, 97, 114]], false⟩]⟩)
        = .ok bs
      ∧ readProtocol bs
        = .ok (.array ⟨ArrayType, [],
            [⟨BulkType, [[102, 111, 111]], false⟩, ⟨BulkType, [[98, 97, 114]], false⟩]⟩) [] := by
  apply claim_c4_value_roundtrip
  refine ⟨rfl, rfl, ?_⟩
  intro b hb
  simp only [List.mem_cons, List.not_mem_nil, or_false] at hb
  rcases hb with rfl | rfl
  · exact ⟨rfl, Or.inr ⟨rfl, [102, 111, 111], rfl⟩⟩
  · exact ⟨rfl, Or.inr ⟨rfl, [98, 97, 114], rfl⟩⟩

/-- C5: `$-1\r\n` decodes to the null-bulk value consuming no further
bytes; the null-bulk value encodes to exactly `$-1\r\n`; and the
zero-length non-null bulk encodes differently — explicit zero length, empty
payload section, both terminators (`$0\r\n\r\n`). -/
theorem claim_c5_null_bulk :
    (∀ rest : Bytes, readProtocol ([36, 45, 49, 13, 10] ++ rest)
        = .ok (.bulk ⟨BulkType, [], true⟩) rest)
    ∧ BulkResp.Encode ⟨BulkType, [], true⟩ = .ok [36, 45, 49, 13, 10]
    ∧ BulkResp.Encode ⟨BulkType, [[]], false⟩ = .ok [36, 48, 13, 10, 13, 10]
    ∧ ([36, 48, 13, 10, 13, 10] : Bytes) ≠ [36, 45, 49, 13, 10] := by
  refine ⟨?_, by decide, by decide, by decide⟩
  intro rest
  exact decode_nullbulk (([36, 45, 49, 13, 10] ++ rest).length) rest

/-- C6: `PING\r\n` and `ping\r\n` both decode to an array holding one bulk
value `PING`; `QUIT\r\n` yields one bulk `QUIT`; and any line whose first
byte is `P`/`p`/`Q`/`q` but whose total length (terminator included) is not
6 bytes fails with the malformed-inline-command error. -/
theorem claim_c6_inline :
    (∀ rest : Bytes, readProtocol ([80, 73, 78, 71, 13, 10] ++ rest) = .ok pingArr rest)
    ∧ (∀ rest : Bytes, readProtocol ([112, 105, 110, 103, 13, 10] ++ rest) = .ok pingArr rest)
    ∧ (∀ rest : Bytes, readProtocol ([81, 85, 73, 84, 13, 10] ++ rest) = .ok quitArr rest)
    ∧ (∀ (c : Nat) (pre rest : Bytes), (c = 80 ∨ c = 112 ∨ c = 81 ∨ c = 113) →
        (∀ b ∈ pre, b ≠ 10) → pre.length ≠ 4 →
        readProtocol ((c :: pre) ++ 10 :: rest) = .err "raw command must be quit or ping") := by
  refine ⟨?_, ?_, ?_, ?_⟩
  · intro rest
    exact decode_inline_ping (([80, 73, 78, 71, 13, 10] ++ rest).length) 80
      [73, 78, 71, 13] rest (Or.inl rfl) rfl (by decide)
  · intro rest
    exact decode_inline_ping (([112, 105, 110, 103, 13, 10] ++ rest).length) 112
      [105, 110, 103, 13] rest (Or.inr rfl) rfl (by decide)
  · intro rest
    exact decode_inline_quit (([81, 85, 73, 84, 13, 10] ++ rest).length) 81
      [85, 73, 84, 13] rest (Or.inl rfl) rfl (by decide)
  · intro c pre rest hc hpre hlen
    exact decode_inline_badlen (((c :: pre) ++ 10 :: rest).length) c pre rest hc hlen hpre

/-- Witness for C6: `PING\r\n` decodes to the PING array, and the 10-byte
line `PINGPONG\r\n` (led by `P` but not 6 bytes long) is rejected. -/
theorem claim_c6_inline_witness :
    readProtocol ([80, 73, 78, 71, 13, 10] ++ []) = .ok pingArr []
    ∧ readProtocol ((80 :: [73, 78, 71, 80, 79, 78, 71, 13]) ++ 10 :: [])
        = .err "raw command must be quit or ping" :=
  ⟨claim_c6_inline.1 [],
    claim_c6_inline.2.2.2 80 [73, 78, 71, 80, 79, 78, 71, 13] []
      (Or.inl rfl) (by decide) (by decide)⟩

/-- C7: decoding an array of declared count `N` decodes `N` children in
order (their re-encodings concatenate back to the child frames); a decoded
child of non-Bulk kind aborts the whole decode with the framing-mismatch
error (no success, no crash); and `N = 0` yields an array with no
children. -/
theorem claim_c7_array_children :
    (∀ (fuel n : Nat) (s rest : Bytes) (v : Resp), readProtocolF fuel s = .ok v rest →
        (∀ b : BulkResp, v ≠ .bulk b) →
        readChildren fuel (n + 1) s = .err "In  ReadResp ArrSep, must read BulkResp")
    ∧ (∀ frames : List Bytes, (∀ fr ∈ frames, WFBulkFrame fr) →
        ∃ children : List BulkResp,
          children.length = frames.length
            ∧ encodeBulkList children = .ok frames.flatten
            ∧ ∀ rest : Bytes,
                readProtocol ((ArrSep :: itob frames.length ++ CRLF ++ frames.flatten) ++ rest)
                  = .ok (.array ⟨ArrayType, [], children⟩) rest)
    ∧ (∀ rest : Bytes, readProtocol ((ArrSep :: itob 0 ++ CRLF) ++ rest)
        = .ok (.array ⟨ArrayType, [], []⟩) rest) := by
  refine ⟨?_, array_frames_decode, ?_⟩
  · intro fuel n s rest v h1 h2
    exact readChildrenGo_nonbulk (readProtocolF fuel) n s rest v h1 h2
  · intro rest
    have hgen : ∀ f, readProtocolF (f + 2) ((ArrSep :: itob 0 ++ CRLF) ++ rest)
        = .ok (.array ⟨ArrayType, [], []⟩) rest := by
      intro f
      rw [decode_array]
      rfl
    rw [readProtocol]
    have hfuel : ((ArrSep :: itob 0 ++ CRLF) ++ rest).length + 1
        = (((ArrSep :: itob 0 ++ CRLF) ++ rest).length - 1) + 2 := by
      simp only [List.length_append, List.length_cons]
      omega
    rw [hfuel]
    exact hgen _

/-- Witness for C7: the nested-array input `*1\r\n*0\r\n` — whose single
child decodes to an (empty) array, not a bulk — aborts with the framing
error, exercised through the child loop at the child `*0\r\n`. -/
theorem claim_c7_array_children_witness :
    readChildren 3 1 [42, 48, 13, 10] = .err "In  ReadResp ArrSep, must read BulkResp"
    ∧ readProtocol ((ArrSep :: itob 0 ++ CRLF) ++ []) = .ok (.array ⟨ArrayType, [], []⟩) [] :=
  ⟨claim_c7_array_children.1 3 0 [42, 48, 13, 10] [] (.array ⟨ArrayType, [], []⟩)
      (by decide) (fun b h => Resp.noConfusion h),
    claim_c7_array_children.2.2 []⟩

/-- C8: the `Length` accessor returns the child count minus one on array
values (so `-1` on an empty array) and zero on every other kind. -/
theorem claim_c8_length :
    (∀ ar : ArrayResp, (Resp.array ar).Length = (ar.args.length : Int) - 1)
    ∧ (∀ v : Resp, (∀ ar : ArrayResp, v ≠ .array ar) → v.Length = 0) := by
  refine ⟨fun _ => rfl, ?_⟩
  intro v hv
  cases v with
  | array ar => exact absurd rfl (hv ar)
  | simple br => rfl
  | error br => rfl
  | int br => rfl
  | bulk b => rfl

/-- Witness for C8 at a two-child array and at a simple value. -/
theorem claim_c8_length_witness :
    (Resp.array ⟨ArrayType, [], [⟨BulkType, [[]], false⟩, ⟨BulkType, [[]], false⟩]⟩).Length = 1
    ∧ (Resp.simple ⟨SimpleType, [[79, 75]]⟩).Length = 0 :=
  ⟨claim_c8_length.1 ⟨ArrayType, [], [⟨BulkType, [[]], false⟩, ⟨BulkType, [[]], false⟩]⟩,
    claim_c8_length.2 (.simple ⟨SimpleType, [[79, 75]]⟩) (fun ar h => Resp.noConfusion h)⟩

/-- C9: rendering a value whose type tag does not match the tag expected by
its concrete type's rendering logic is the fatal tag assertion (a panic
carrying that expected tag), never a normal return; and when the tag
matches, that assertion is unreachable: no result of the render is a type
panic expecting that tag. -/
theorem claim_c9_encode_panic :
    (∀ v : Resp, tagOf v ≠ expectedTag v →
        Resp.Encode v = .typePanic (tagOf v) (expectedTag v))
    ∧ (∀ v : Resp, tagOf v = expectedTag v →
        ∀ g : String, Resp.Encode v ≠ .typePanic g (expectedTag v)) := by
  constructor
  · intro v hv
    cases v with
    | simple br => simp only [Resp.Encode, SimpleRespEncode, tagOf, expectedTag] at hv ⊢; rw [if_pos hv]
    | error br => simp only [Resp.Encode, ErrorRespEncode, tagOf, expectedTag] at hv ⊢; rw [if_pos hv]
    | int br => simp only [Resp.Encode, IntRespEncode, tagOf, expectedTag] at hv ⊢; rw [if_pos hv]
    | bulk b => simp only [Resp.Encode, BulkResp.Encode, tagOf, expectedTag] at hv ⊢; rw [if_pos hv]
    | array ar => simp only [Resp.Encode, ArrayResp.Encode, tagOf, expectedTag] at hv ⊢; rw [if_pos hv]
  · intro v hv g
    cases v with
    | simple br =>
      simp only [tagOf, expectedTag] at hv
      simp only [Resp.Encode, SimpleRespEncode, hv, ne_eq, not_true_eq_false, if_false]
      cases br.args <;> intro h <;> exact EncodeResult.noConfusion h
    | error br =>
      simp only [tagOf, expectedTag] at hv
      simp only [Resp.Encode, ErrorRespEncode, hv, ne_eq, not_true_eq_false, if_false]
      cases br.args <;> intro h <;> exact EncodeResult.noConfusion h
    | int br =>
      simp only [tagOf, expectedTag] at hv
      simp only [Resp.Encode, IntRespEncode, hv, ne_eq, not_true_eq_false, if_false]
      cases br.args <;> intro h <;> exact EncodeResult.noConfusion h
    | bulk b =>
      simp only [tagOf, expectedTag] at hv
      simp only [Resp.Encode, BulkResp.Encode, hv, ne_eq, not_true_eq_false, if_false]
      cases b.empty <;> simp only [if_true, if_false, Bool.false_eq_true]
      · cases b.args <;> intro h <;> exact EncodeResult.noConfusion h
      · intro h; exact EncodeResult.noConfusion h
    | array ar =>
      simp only [tagOf, expectedTag] at hv
      simp only [Resp.Encode, ArrayResp.Encode, hv, ne_eq, not_true_eq_false, if_false]
      cases hck : encodeBulkList ar.args with
      | ok body => intro h; exact EncodeResult.noConfusion h
      | typePanic g2 e2 =>
        intro h
        injection h with h1 h2
        subst h2
        exact encodeBulkList_no_array_panic ar.args g2 hck
      | indexPanic => intro h; exact EncodeResult.noConfusion h

/-- Witness for C9: a `SimpleResp` mistagged as bulk panics with the
expected-simple message; a correctly tagged one never raises the
expected-simple panic (checked at the message fields it would carry). -/
theorem claim_c9_encode_panic_witness :
    Resp.Encode (.simple ⟨"bulk", []⟩) = .typePanic "bulk" "simple"
    ∧ Resp.Encode (.simple ⟨"simple", [[79, 75]]⟩) ≠ .typePanic "simple" "simple" :=
  ⟨claim_c9_encode_panic.1 (.simple ⟨"bulk", []⟩) (by decide),
    claim_c9_encode_panic.2 (.simple ⟨"simple", [[79, 75]]⟩) (by decide) "simple"⟩

/-- C10: only the first byte and the line length are checked for inline
commands: every 6-byte line whose first byte is `P`/`p` decodes to the PING
array whatever its other bytes are, and every 6-byte line led by `Q`/`q`
decodes to the QUIT array. -/
theorem claim_c10_inline_first_byte :
    (∀ (c : Nat) (pre rest : Bytes), (c = 80 ∨ c = 112) → pre.length = 4 →
        (∀ b ∈ pre, b ≠ 10) → readProtocol ((c :: pre) ++ 10 :: rest) = .ok pingArr rest)
    ∧ (∀ (c : Nat) (pre rest : Bytes), (c = 81 ∨ c = 113) → pre.length = 4 →
        (∀ b ∈ pre, b ≠ 10) → readProtocol ((c :: pre) ++ 10 :: rest) = .ok quitArr rest) := by
  constructor
  · intro c pre rest hc hlen hpre
    exact decode_inline_ping (((c :: pre) ++ 10 :: rest).length) c pre rest hc hlen hpre
  · intro c pre rest hc hlen hpre
    exact decode_inline_quit (((c :: pre) ++ 10 :: rest).length) c pre rest hc hlen hpre

/-- Witness for C10: `PONG\r\n` decodes to the PING array and `qXYZ\r\n`
decodes to the QUIT array. -/
theorem claim_c10_inline_first_byte_witness :
    readProtocol ((80 :: [79, 78, 71, 13]) ++ 10 :: []) = .ok pingArr []
    ∧ readProtocol ((113 :: [88, 89, 90, 13]) ++ 10 :: []) = .ok quitArr [] :=
  ⟨claim_c10_inline_first_byte.1 80 [79, 78, 71, 13] [] (Or.inl rfl) rfl (by decide),
    claim_c10_inline_first_byte.2 113 [88, 89, 90, 13] [] (Or.inr rfl) rfl (by decide)⟩

end Archer
